import Mathlib

/-!
Shallow embedding of the parse-marathon-events repository
(src/scrape-roadrun.mjs and src/notion.mjs) together with theorems
settling the specification claims.

JavaScript strings are modelled as Lean String / List Char; JS regular
expression searches are modelled by explicit scanners.  For every regex in
the source, greedy matching without backtracking is used only where it is
provably equivalent to full backtracking semantics (each such place is
justified in a comment).  The Notion store (an external collaborator) is
modelled as a list of pages with exact title-match queries, as specified
by the repository's store interface.
-/

namespace RoadRun

/-- JS whitespace class `\s` restricted to the whitespace characters that can
actually occur in the repository's data (space, tab, CR, LF, vertical tab,
form feed, NBSP). -/
def isWs (c : Char) : Bool :=
  c = ' ' || c = '\t' || c = '\n' || c = '\r' ||
  c = Char.ofNat 11 || c = Char.ofNat 12 || c = Char.ofNat 160

/-- Regex digit class `\d`. -/
def isDigit (c : Char) : Bool := 48 ≤ c.toNat && c.toNat ≤ 57

/-- Numeric value of a digit character. -/
def digitVal (c : Char) : Nat := c.toNat - 48

/-- Value of a list of decimal digit characters, as JS parseInt reads it. -/
def digitsVal (l : List Char) : Nat := l.foldl (fun a c => a * 10 + digitVal c) 0

/-- Decimal rendering of a value, zero-padded to two characters
(JS `String(n).padStart(2, "0")`). -/
def pad2 (n : Nat) : String :=
  if n < 10 then "0" ++ Nat.repr n else Nat.repr n

/-- Decimal rendering zero-padded to four characters (dayjs `YYYY` token). -/
def pad4 (n : Nat) : String :=
  if n < 10 then "000" ++ Nat.repr n
  else if n < 100 then "00" ++ Nat.repr n
  else if n < 1000 then "0" ++ Nat.repr n
  else Nat.repr n

/-- Drop leading whitespace; models a greedy `\s*` regex item.  Every `\s*`
in the repository's regexes is followed by a non-whitespace token, for which
greedy matching without backtracking coincides with full regex semantics. -/
def skipWs : List Char → List Char
  | [] => []
  | c :: cs => if isWs c then skipWs cs else c :: cs

/-- Drop the expected character from the head of the input. -/
def expectC (c : Char) : List Char → Option (List Char)
  | [] => none
  | a :: as => if a = c then some as else none

/-- Does `hd` start with `sub`? -/
def leadsWith : List Char → List Char → Bool
  | [], _ => true
  | _ :: _, [] => false
  | a :: as, b :: bs => a = b && leadsWith as bs

/-- Substring membership of character lists (JS `String.prototype.includes`). -/
def containsChars (sub : List Char) : List Char → Bool
  | [] => leadsWith sub []
  | c :: cs => leadsWith sub (c :: cs) || containsChars sub cs

/-- JS `hay.includes(sub)`. -/
def containsStr (hay sub : String) : Bool := containsChars sub.toList hay.toList

/-- Trim leading and trailing whitespace (JS `String.prototype.trim`). -/
def trimChars (l : List Char) : List Char :=
  ((l.dropWhile isWs).reverse.dropWhile isWs).reverse

/-- JS `s.trim()`. -/
def trimStr (s : String) : String := String.mk (trimChars s.toList)

/-- Collapse every whitespace run to a single space
(JS `text.replace(/\s+/g, " ")`); the flag records whether the previous
character was part of a whitespace run. -/
def collapseAux : Bool → List Char → List Char
  | _, [] => []
  | prevWs, c :: cs =>
    if isWs c then
      if prevWs then collapseAux true cs
      else ' ' :: collapseAux true cs
    else c :: collapseAux false cs

/-- Function clean from src/scrape-roadrun.mjs:
`text.replace(/\s+/g, " ").trim()`. -/
def clean (s : String) : String :=
  String.mk (trimChars (collapseAux false s.toList))

/-- Run a position matcher at every start position, leftmost match first;
models the search phase of JS `String.prototype.match`.  (All of the
repository's patterns need at least one character, so the empty final
position never matches.) -/
def scanList (f : List Char → Option α) : List Char → Option α
  | [] => none
  | c :: cs =>
    match f (c :: cs) with
    | some r => some r
    | none => scanList f cs

/-! ### parseTime (src/scrape-roadrun.mjs, lines 28-69) -/

/-- Pattern 1 of `parseTime`: `/(\d{1,2}):(\d{2})/` anchored at the current
position, output already padded (`h.padStart(2, "0") + ":" + mi`).
Backtracking from a two-digit hour to a one-digit hour is impossible here
(the shorter hour leaves a digit where `:` is required), so a greedy
two-then-one attempt is faithful. -/
def hmAt : List Char → Option String
  | a :: b :: rest =>
    if isDigit a then
      if isDigit b then
        match rest with
        | ':' :: c :: d :: _ =>
          if isDigit c && isDigit d then some (String.mk [a, b, ':', c, d]) else none
        | _ => none
      else if b = ':' then
        match rest with
        | c :: d :: _ =>
          if isDigit c && isDigit d then some (String.mk ['0', a, ':', c, d]) else none
        | _ => none
      else none
    else none
  | _ => none

/-- A run `\d{1,2}` immediately followed by the literal `stop` character, as in
`(\d{1,2})시` and `(\d{1,2})분`.  With two digits available the one-digit
alternative always fails (the second digit is not the stop character), so
greedy matching is faithful. -/
def digitsThen (stop : Char) : List Char → Option (Nat × List Char)
  | a :: rest =>
    if isDigit a then
      match rest with
      | b :: rest2 =>
        if isDigit b then
          match rest2 with
          | s :: r3 => if s = stop then some (digitsVal [a, b], r3) else none
          | [] => none
        else if b = stop then some (digitVal a, rest2)
        else none
      | [] => none
    else none
  | [] => none

/-- Hour/minute conversion of pattern 2 of `parseTime`: the 오전/오후 branch
body (hour adjustment ifs and padded output). -/
def ampmCore (isAm : Bool) (rest : List Char) : Option String :=
  match digitsThen '시' rest with
  | none => none
  | some (h, r2) =>
    let minute : Nat :=
      match digitsThen '분' r2 with
      | some (v, _) => v
      | none => 0
    let h1 : Nat := if !isAm && h < 12 then h + 12 else h
    let h2 : Nat := if isAm && h1 = 12 then 0 else h1
    some (pad2 h2 ++ ":" ++ pad2 minute)

/-- Pattern 2 of `parseTime`: `/(오전|오후)(\d{1,2})시(?:(\d{1,2})분)?/`
anchored at the current position. -/
def ampmAt : List Char → Option String
  | '오' :: '전' :: rest => ampmCore true rest
  | '오' :: '후' :: rest => ampmCore false rest
  | _ => none

/-- Pattern 3 of `parseTime`: `/(\d{1,2})시/` anchored at the current
position. -/
def bareAt (l : List Char) : Option String :=
  match digitsThen '시' l with
  | some (h, _) => some (pad2 h ++ ":00")
  | none => none

/-- Function parseTime from src/scrape-roadrun.mjs: strips all whitespace, then
tries the three patterns in order, first match wins, `null` if none match. -/
def parseTime (str : String) : Option String :=
  let s := str.toList.filter (fun c => !(isWs c))
  match scanList hmAt s with
  | some r => some r
  | none =>
    match scanList ampmAt s with
    | some r => some r
    | none =>
      match scanList bareAt s with
      | some r => some r
      | none => none

/-! ### normalizeCourse (src/scrape-roadrun.mjs, lines 72-84) -/

/-- The `(\d+)\s*k/i` rule of `normalizeCourse`, anchored at the current
position: a nonempty greedy digit run, optional whitespace, then `k` or `K`;
returns the captured digit run.  A shorter-than-greedy digit run always
fails (it leaves a digit where `\s*k` must match), so greedy matching is
faithful. -/
def kNumAt (l : List Char) : Option (List Char) :=
  match l.span isDigit with
  | (digits, rest) =>
    if digits.isEmpty then none
    else
      match skipWs rest with
      | k :: _ => if k = 'k' || k = 'K' then some digits else none
      | [] => none

/-- JS `str.split(sep)` for a single-character separator: every occurrence
separates, empty parts are kept. -/
def splitOnChar (sep : Char) : List Char → List (List Char)
  | [] => [[]]
  | c :: cs =>
    let r := splitOnChar sep cs
    if c = sep then [] :: r
    else
      match r with
      | h :: t => (c :: h) :: t
      | [] => [[c]]

/-- JS `s.split(sep)` on strings (single-character separator). -/
def splitStr (sep : Char) (s : String) : List String :=
  (splitOnChar sep s.toList).map String.mk

/-- Function normalizeCourse from src/scrape-roadrun.mjs: split on commas, trim,
drop empty segments, then first matching rule per segment. -/
def normalizeCourse (text : String) : List String :=
  (((splitStr ',' text).map trimStr).filter (fun s => s ≠ "")).map (fun s =>
    if containsStr s "풀" then "full"
    else if containsStr s "하프" then "half"
    else
      match scanList kNumAt s.toList with
      | some ds => String.mk ds ++ "k"
      | none => s)

/-! ### parseKoreanDate (src/scrape-roadrun.mjs, lines 19-24) -/

/-- The item `\d{4}` anchored at the current position: exactly four digits. -/
def take4Digits : List Char → Option (Nat × List Char)
  | a :: b :: c :: d :: rest =>
    if isDigit a && isDigit b && isDigit c && isDigit d then
      some (digitsVal [a, b, c, d], rest)
    else none
  | _ => none

/-- The item `\d{1,2}` anchored at the current position, greedy.  In the date regex
each `(\d{1,2})` is followed by `\s*` and a non-digit glyph, so when two
digits are available the one-digit alternative always fails and greedy
matching without backtracking is faithful. -/
def take12Digits : List Char → Option (Nat × List Char)
  | [] => none
  | [a] => if isDigit a then some (digitVal a, []) else none
  | a :: b :: rest =>
    if isDigit a then
      if isDigit b then some (digitsVal [a, b], rest)
      else some (digitVal a, b :: rest)
    else none

/-- The regex `/(\d{4})\s*년\s*(\d{1,2})\s*월\s*(\d{1,2})\s*일/` anchored at
the current position; returns the three captured numbers. -/
def kdateAt (l : List Char) : Option (Nat × Nat × Nat) :=
  (take4Digits l).bind (fun p1 =>
    (expectC '년' (skipWs p1.2)).bind (fun r2 =>
      (take12Digits (skipWs r2)).bind (fun p2 =>
        (expectC '월' (skipWs p2.2)).bind (fun r4 =>
          (take12Digits (skipWs r4)).bind (fun p3 =>
            (expectC '일' (skipWs p3.2)).map (fun _ => (p1.1, p2.1, p3.1)))))))

/-- Gregorian leap-year test used by the JS `Date` object. -/
def isLeap (y : Nat) : Bool := (y % 4 == 0 && y % 100 != 0) || y % 400 == 0

/-- Days in a month of the proleptic Gregorian calendar (JS `Date`). -/
def daysInMonth (y m : Nat) : Nat :=
  if m = 2 then (if isLeap y then 29 else 28)
  else if m = 4 || m = 6 || m = 9 || m = 11 then 30
  else 31

/-- Normalize a day overflow by rolling into following months.  Captured
days are at most two digits, so at most four rolls are ever needed; the
fuel only bounds the recursion. -/
def rollDays : Nat → Nat → Nat → Nat → Nat × Nat × Nat
  | 0, y, m, d => (y, m, d)
  | fuel + 1, y, m, d =>
    if d ≤ daysInMonth y m then (y, m, d)
    else
      rollDays fuel (if m = 12 then y + 1 else y) (if m = 12 then 1 else m + 1)
        (d - daysInMonth y m)

/-- The date denoted by `dayjs` for a captured `(year, month, day)` triple:
dayjs parses the rebuilt string with its date regex and constructs
`new Date(year, month - 1, day)`, which normalizes month and day overflow
(and maps constructor years 0-99 to 1900-1999). -/
def dayjsNorm (yRaw mo d : Nat) : Nat × Nat × Nat :=
  let year := if yRaw ≤ 99 then 1900 + yRaw else yRaw
  let t := year * 12 + mo
  let y1 := (t - 1) / 12
  let m1 := (t - 1) % 12 + 1
  if d = 0 then
    if m1 = 1 then (y1 - 1, 12, daysInMonth (y1 - 1) 12)
    else (y1, m1 - 1, daysInMonth y1 (m1 - 1))
  else rollDays 8 y1 m1 d

/-- Function parseKoreanDate from src/scrape-roadrun.mjs: regex search for the
Korean date pattern, then dayjs construction from the captures; the
resulting dayjs object is represented by its normalized
(year, month, day) fields. -/
def parseKoreanDate (s : String) : Option (Nat × Nat × Nat) :=
  (scanList kdateAt s.toList).map (fun t => dayjsNorm t.1 t.2.1 t.2.2)

/-- dayjs `format("YYYY-MM-DD")` on the represented date. -/
def fmtYMD (t : Nat × Nat × Nat) : String :=
  pad4 t.1 ++ "-" ++ pad2 t.2.1 ++ "-" ++ pad2 t.2.2

/-! ### fetchRaceDetail (src/scrape-roadrun.mjs, lines 120-215)

The detail document is modelled after the transport and cheerio layers:
a list of table rows, each row a list of `td` cells; a cell carries its
text content and the `href` attributes of its anchor elements in document
order (`none` for an anchor without an `href` attribute). -/

/-- One `td` cell of a detail-document table row. -/
structure Cell where
  text : String
  anchors : List (Option String)
deriving DecidableEq

/-- The mutable locals of `fetchRaceDetail`'s row-scanning loop. -/
structure RowState where
  raceName : String
  dateRaw : String
  courseRaw : String
  region : String
  venue : String
  entryRaw : String
  homepage : Option String
deriving DecidableEq

/-- Initial values of the row-scanning loop locals. -/
def initState : RowState :=
  { raceName := "", dateRaw := "", courseRaw := "", region := "", venue := ""
    entryRaw := "", homepage := none }

/-- The regex `/https?:\/\/\S+/` anchored at the current position.  The
optional `s` cannot backtrack usefully (`:` is never `s`), and the greedy
`\S+` is final, so greedy matching is faithful. -/
def urlAt (l : List Char) : Option (List Char) :=
  match l with
  | 'h' :: 't' :: 't' :: 'p' :: rest =>
    match rest with
    | 's' :: ':' :: '/' :: '/' :: r =>
      match r.span (fun c => !(isWs c)) with
      | (tok, _) =>
        if tok.isEmpty then none
        else some (['h', 't', 't', 'p', 's', ':', '/', '/'] ++ tok)
    | ':' :: '/' :: '/' :: r =>
      match r.span (fun c => !(isWs c)) with
      | (tok, _) =>
        if tok.isEmpty then none
        else some (['h', 't', 't', 'p', ':', '/', '/'] ++ tok)
    | _ => none
  | _ => none

/-- The homepage fallback of the 홈페이지 branch: first URL-looking token of
the value text, otherwise the homepage local keeps its previous value. -/
def homepageFallback (st : RowState) (valueText : String) : RowState :=
  match scanList urlAt valueText.toList with
  | some u => { st with homepage := some (String.mk u) }
  | none => st

/-- The last cell of a row with head `c` and tail `cs`
(`$(tds[tds.length - 1])`). -/
def lastCell (c : Cell) (cs : List Cell) : Cell := cs.getLastD c

/-- The 홈페이지 branch of the row loop: a nonempty `href` on the value
cell's first anchor wins, otherwise the URL-token fallback on the value
text (which keeps the previous homepage when nothing matches). -/
def homeUpdate (st : RowState) (valueTd : Cell) (valueText : String) : RowState :=
  match valueTd.anchors with
  | some href :: _ =>
    if href ≠ "" then { st with homepage := some href }
    else homepageFallback st valueText
  | none :: _ => homepageFallback st valueText
  | [] => homepageFallback st valueText

/-- One iteration of `fetchRaceDetail`'s row loop: rows with fewer than two
cells are skipped, the first cell is the label, the last cell the value,
and the label dispatches by substring matching in source order. -/
def stepRow (st : RowState) (row : List Cell) : RowState :=
  match row with
  | c0 :: c1 :: rest =>
    let label := clean c0.text
    let valueTd := lastCell c1 rest
    let valueText := clean valueTd.text
    if label = "" then st
    else if containsStr label "대회명" then { st with raceName := valueText }
    else if containsStr label "대회일시" then { st with dateRaw := valueText }
    else if containsStr label "대회종목" then { st with courseRaw := valueText }
    else if containsStr label "대회지역" then { st with region := valueText }
    else if containsStr label "대회장소" then { st with venue := valueText }
    else if containsStr label "접수기간" then { st with entryRaw := valueText }
    else if containsStr label "홈페이지" then homeUpdate st valueTd valueText
    else st
  | _ => st

/-- The whole row-scanning loop of `fetchRaceDetail`. -/
def scanRows (rows : List (List Cell)) : RowState :=
  rows.foldl stepRow initState

/-- The Event Record produced by `fetchRaceDetail`. -/
structure Race where
  source : String
  source_id : String
  source_url : String
  race_name : String
  race_datetime : Option String
  course : List String
  location_full : String
  entry_period_raw : String
  entry_start : Option String
  entry_end : Option String
  homepage : Option String
deriving DecidableEq

/-- Fixed origin address of the listing site. -/
def BASE_URL : String := "http://www.roadrun.co.kr/schedule"

/-- The join `[region, venue].filter(Boolean).join(" ")`. -/
def joinLoc (region venue : String) : String :=
  if region = "" then venue
  else if venue = "" then region
  else region ++ " " ++ venue

/-- The post-scan assembly of `fetchRaceDetail` (lines 175-214): combined
date/time, category normalization, location join, entry-period split, and
the returned record. -/
def finalize (no : String) (st : RowState) : Race :=
  let raceDatetime : Option String :=
    if st.dateRaw = "" then none
    else
      match parseKoreanDate st.dateRaw with
      | some dt =>
        some (fmtYMD dt ++ " " ++ ((parseTime st.dateRaw).getD "00:00"))
      | none => none
  let entryPair : Option String × Option String :=
    if st.entryRaw ≠ "" && containsStr st.entryRaw "~" then
      let parts := (splitStr '~' st.entryRaw).map clean
      ((parseKoreanDate (parts.getD 0 "")).map fmtYMD,
       (parseKoreanDate (parts.getD 1 "")).map fmtYMD)
    else (none, none)
  { source := "roadrun"
    source_id := no
    source_url := BASE_URL ++ "/view.php?no=" ++ no
    race_name := st.raceName
    race_datetime := raceDatetime
    course := normalizeCourse st.courseRaw
    location_full := joinLoc st.region st.venue
    entry_period_raw := st.entryRaw
    entry_start := entryPair.1
    entry_end := entryPair.2
    homepage := st.homepage }

/-- Function fetchRaceDetail from src/scrape-roadrun.mjs, as a pure function of
the already-fetched, already-parsed detail document: throws on a zero-row
document, otherwise scans the rows and assembles the Event Record. -/
def fetchRaceDetail (no : String) (rows : List (List Cell)) : Except String Race :=
  if rows = [] then Except.error "No TR rows found in detail page"
  else Except.ok (finalize no (scanRows rows))

/-! ### Notion sync (src/notion.mjs)

The destination store is an external collaborator; following the
repository's store interface it is modelled as a list of pages whose query
filters on exact equality of the Name title text, whose create appends a
page with a fresh identifier, and whose update replaces the properties of
the page with the given identifier. -/

/-- JS truthiness on an optional string: `null`/`undefined` and `""` are
falsy. -/
def jsTruthy : Option String → Option String
  | none => none
  | some s => if s = "" then none else some s

/-- JS `s.replace(" ", "T")`: only the first occurrence is replaced. -/
def replaceFirstSpaceT : List Char → List Char
  | [] => []
  | c :: cs => if c = ' ' then 'T' :: cs else c :: replaceFirstSpaceT cs

/-- The property set sent to the store for one Event Record. -/
structure Props where
  nameTitle : String
  location : String
  course : List String
  raceDateTime : Option String
  entryStartD : Option String
  entryEndD : Option String
  url : Option String
deriving DecidableEq

/-- Function buildProperties from src/notion.mjs.  (`race.Course` and
`race.categories` are undefined on the records this pipeline produces, so
the `race.Course || race.course || race.categories || []` chain always
selects `race.course`.) -/
def buildProperties (race : Race) : Props :=
  { nameTitle := if race.race_name = "" then "(제목 없음)" else race.race_name
    location := race.location_full
    course := race.course
    raceDateTime :=
      (jsTruthy race.race_datetime).map
        (fun s => String.mk (replaceFirstSpaceT s.toList) ++ "+09:00")
    entryStartD := jsTruthy race.entry_start
    entryEndD := jsTruthy race.entry_end
    url := jsTruthy race.homepage }

/-- A page of the destination store; identifiers are modelled as numbers. -/
structure Page where
  id : Nat
  props : Props
deriving DecidableEq

/-- Fresh page identifier assigned by the store on create: above every
existing identifier. -/
def freshId (store : List Page) : Nat :=
  store.foldr (fun p m => max p.id m) 0 + 1

/-- Store-side update: replace the properties of the page with the given
identifier. -/
def updateStore (store : List Page) (pid : Nat) (props : Props) : List Page :=
  store.map (fun p => if p.id = pid then { p with props := props } else p)

/-- Store-side query result for a Name-title equality filter. -/
def queryStore (store : List Page) (name : String) : List Page :=
  store.filter (fun p => p.props.nameTitle = name)

/-- Process configuration of src/notion.mjs: the two environment secrets. -/
structure SyncConfig where
  token : Option String
  dbId : Option String
deriving DecidableEq

/-- Network behaviour of the store on the query request. -/
inductive QueryNet
  | ok
  | httpError
  | unreachable
deriving DecidableEq

/-- One run environment of the sync engine: configuration, query-request
network behaviour, and whether the create/update SDK call rejects. -/
structure SyncEnv where
  cfg : SyncConfig
  queryNet : QueryNet
  writeFails : Bool
deriving DecidableEq

/-- Observable store calls issued while syncing one record. -/
inductive Action
  | query (name : String)
  | create (dbId : String) (props : Props)
  | update (pageId : Nat) (props : Props)
deriving DecidableEq

/-- Function queryByRaceName from src/notion.mjs: skipped with an empty result
when `NOTION_DB_ID` or `NOTION_TOKEN` is unset; otherwise the query request
is issued — a rejected fetch propagates, a non-2xx response is logged and
yields the empty list, a 2xx response yields the store's matches. -/
def queryByRaceName (env : SyncEnv) (store : List Page) (name : String) :
    List Action × Except String (List Page) :=
  match env.cfg.dbId with
  | none => ([], Except.ok [])
  | some _ =>
    match env.cfg.token with
    | none => ([], Except.ok [])
    | some _ =>
      match env.queryNet with
      | QueryNet.unreachable => ([Action.query name], Except.error "fetch failed")
      | QueryNet.httpError => ([Action.query name], Except.ok [])
      | QueryNet.ok => ([Action.query name], Except.ok (queryStore store name))

/-- Function upsertRaceToNotion from src/notion.mjs: no-op without `NOTION_DB_ID`;
otherwise query by the record's name, then update the first match, or
create under the configured database when there is no match.  Returns the
issued store calls and the resulting store (or the propagated error). -/
def upsertRaceToNotion (env : SyncEnv) (store : List Page) (race : Race) :
    List Action × Except String (List Page) :=
  match env.cfg.dbId with
  | none => ([], Except.ok store)
  | some db =>
    match queryByRaceName env store race.race_name with
    | (qa, Except.error e) => (qa, Except.error e)
    | (qa, Except.ok existing) =>
      let properties := buildProperties race
      match existing with
      | p :: _ =>
        (qa ++ [Action.update p.id properties],
         if env.writeFails then Except.error "update failed"
         else Except.ok (updateStore store p.id properties))
      | [] =>
        (qa ++ [Action.create db properties],
         if env.writeFails then Except.error "create failed"
         else Except.ok (store ++ [{ id := freshId store, props := properties }]))

/-- Number of create calls in a trace. -/
def countCreates (l : List Action) : Nat :=
  (l.filter (fun a => match a with | Action.create _ _ => true | _ => false)).length

/-- Number of update calls in a trace. -/
def countUpdates (l : List Action) : Nat :=
  (l.filter (fun a => match a with | Action.update _ _ => true | _ => false)).length

/-- Is the result a raised error? -/
def isErr : Except String α → Bool
  | Except.error _ => true
  | Except.ok _ => false

/-! ## Theorems for the specification claims -/

/-- C4: `parseTimeOfDay` tries the three patterns in order with first match
winning — explicit H:MM (zero-padded hour), AM/PM marker + hour + optional
minutes (afternoon 1-11 maps to +12, morning 12 maps to 0, morning 1-11 and
afternoon 12 pass through), then bare hour with minutes defaulting to 00 —
and returns null when none match; in particular on the four quoted
examples.  The `1:23 오후4시` conjunct shows pattern 1 beating pattern 2,
and `오후4시` (= 16:00, not 04:00) shows pattern 2 beating pattern 3. -/
theorem parseTime_spec :
    parseTime "오후3시30분" = some "15:30" ∧
    parseTime "오전12시" = some "00:00" ∧
    parseTime "9시" = some "09:00" ∧
    parseTime "09:05 출발" = some "09:05" ∧
    (∀ h : Nat, 1 ≤ h → h ≤ 11 →
      parseTime ("오후" ++ Nat.repr h ++ "시") = some (pad2 (h + 12) ++ ":00") ∧
      parseTime ("오전" ++ Nat.repr h ++ "시") = some (pad2 h ++ ":00")) ∧
    parseTime "오후12시" = some "12:00" ∧
    parseTime "1:23 오후4시" = some "01:23" ∧
    parseTime "오후4시" = some "16:00" ∧
    parseTime "출발" = none := by
  refine ⟨by decide, by decide, by decide, by decide, ?_, by decide, by decide,
    by decide, by decide⟩
  intro h h1 h2
  interval_cases h <;> exact ⟨by decide, by decide⟩

/-- Witness for C4: the AM/PM range conjunct evaluated at hour 3. -/
theorem parseTime_spec_witness :
    parseTime ("오후" ++ Nat.repr 3 ++ "시") = some (pad2 (3 + 12) ++ ":00") :=
  (parseTime_spec.2.2.2.2.1 3 (by decide) (by decide)).1

/-- C6: `normalizeCategories` splits on commas, trims, drops empty
segments, and maps each remaining segment by the first matching rule (full
marker, half marker, digits-then-k case-insensitively, otherwise
unchanged), preserving source order and duplicates; in particular on the
quoted example.  `풀10k` → `full` and `하프5k` → `half` show the rule
order; the repeated `5K` shows duplicates and order preserved. -/
theorem normalizeCourse_spec :
    normalizeCourse "풀코스, 하프, 10k, 5K" = ["full", "half", "10k", "5k"] ∧
    normalizeCourse " , ,풀" = ["full"] ∧
    normalizeCourse "하프, 하프" = ["half", "half"] ∧
    normalizeCourse "풀10k" = ["full"] ∧
    normalizeCourse "하프5k" = ["half"] ∧
    normalizeCourse "산책" = ["산책"] ∧
    normalizeCourse "" = [] ∧
    normalizeCourse "5K, 10k, 5K" = ["5k", "10k", "5k"] := by
  refine ⟨by decide, by decide, by decide, by decide, by decide, by decide,
    by decide, by decide⟩

/-- C5: the combined date/time runs `parseCalendarDate` and
`parseTimeOfDay` over the same raw date/time text; date without time gives
a `00:00` time component; no parsed date (including an absent date/time
row) gives a null `startAt` even when a time parses. -/
theorem startAt_spec :
    (∀ (no : String) (st : RowState) (dt : Nat × Nat × Nat),
        parseKoreanDate st.dateRaw = some dt → parseTime st.dateRaw = none →
        (finalize no st).race_datetime = some (fmtYMD dt ++ " " ++ "00:00")) ∧
    (∀ (no : String) (st : RowState) (dt : Nat × Nat × Nat) (t : String),
        parseKoreanDate st.dateRaw = some dt → parseTime st.dateRaw = some t →
        (finalize no st).race_datetime = some (fmtYMD dt ++ " " ++ t)) ∧
    (∀ (no : String) (st : RowState),
        parseKoreanDate st.dateRaw = none →
        (finalize no st).race_datetime = none) ∧
    (∀ (no : String) (st : RowState),
        st.dateRaw = "" → (finalize no st).race_datetime = none) := by
  have hempty : parseKoreanDate "" = none := rfl
  refine ⟨?_, ?_, ?_, ?_⟩
  · intro no st dt hd ht
    have hne : st.dateRaw ≠ "" := by
      intro h; rw [h, hempty] at hd; exact Option.noConfusion hd
    simp [finalize, hne, hd, ht]
  · intro no st dt t hd ht
    have hne : st.dateRaw ≠ "" := by
      intro h; rw [h, hempty] at hd; exact Option.noConfusion hd
    simp [finalize, hne, hd, ht]
  · intro no st hd
    by_cases h : st.dateRaw = "" <;> simp [finalize, h, hd]
  · intro no st h
    simp [finalize, h]

/-- Witness for C5: a date-only raw value gives a `00:00` time component;
a time-only raw value still gives a null `startAt`. -/
theorem startAt_spec_witness :
    (finalize "1" { initState with dateRaw := "2026년1월11일" }).race_datetime =
      some (fmtYMD (2026, 1, 11) ++ " " ++ "00:00") ∧
    (finalize "1" { initState with dateRaw := "오전9시" }).race_datetime = none :=
  ⟨startAt_spec.1 "1" { initState with dateRaw := "2026년1월11일" } (2026, 1, 11)
      (by decide) (by decide),
   startAt_spec.2.2.1 "1" { initState with dateRaw := "오전9시" } (by decide)⟩

/-- C8: the extractor fails if and only if the document has zero rows, and
a row with fewer than two cells is skipped without error and contributes
nothing to the record. -/
theorem zeroRows_spec :
    (∀ (no : String) (rows : List (List Cell)),
        isErr (fetchRaceDetail no rows) = true ↔ rows = []) ∧
    (∀ (st : RowState) (row : List Cell),
        row.length < 2 → stepRow st row = st) ∧
    (∀ (no : String) (rows1 rows2 : List (List Cell)) (row : List Cell),
        row.length < 2 → rows1 ++ rows2 ≠ [] →
        fetchRaceDetail no (rows1 ++ row :: rows2) =
          fetchRaceDetail no (rows1 ++ rows2)) := by
  have hskip : ∀ (st : RowState) (row : List Cell), row.length < 2 → stepRow st row = st := by
    intro st row h
    match row with
    | [] => rfl
    | [c] => rfl
    | c0 :: c1 :: rest => simp at h; omega
  refine ⟨?_, hskip, ?_⟩
  · intro no rows
    constructor
    · intro he
      by_contra hne
      simp [fetchRaceDetail, hne, isErr] at he
    · rintro rfl
      rfl
  · intro no rows1 rows2 row hlen hne
    have h1 : rows1 ++ row :: rows2 ≠ [] := by
      intro h; cases rows1 <;> simp_all
    have hscan : scanRows (rows1 ++ row :: rows2) = scanRows (rows1 ++ rows2) := by
      simp only [scanRows, List.foldl_append, List.foldl_cons]
      rw [hskip _ row hlen]
    simp [fetchRaceDetail, h1, hne, hscan]

/-- Witness for C8: a zero-row document errors; a one-cell row is skipped
(the extractor output with it equals the output without it). -/
theorem zeroRows_spec_witness :
    isErr (fetchRaceDetail "1" []) = true ∧
    stepRow initState [{ text := "대회명", anchors := [] }] = initState ∧
    fetchRaceDetail "1"
        [[{ text := "하나", anchors := [] }],
         [{ text := "대회명", anchors := [] }, { text := "B", anchors := [] }]] =
      fetchRaceDetail "1"
        [[{ text := "대회명", anchors := [] }, { text := "B", anchors := [] }]] :=
  ⟨(zeroRows_spec.1 "1" []).2 rfl,
   zeroRows_spec.2.1 initState [{ text := "대회명", anchors := [] }] (by decide),
   zeroRows_spec.2.2 "1" [] [[{ text := "대회명", anchors := [] }, { text := "B", anchors := [] }]]
     [{ text := "하나", anchors := [] }] (by decide) (by decide)⟩

/-- The label of a row is recognized by none of the seven label checks of
the row loop. -/
def unrecognizedLabel (label : String) : Prop :=
  containsStr label "대회명" = false ∧ containsStr label "대회일시" = false ∧
  containsStr label "대회종목" = false ∧ containsStr label "대회지역" = false ∧
  containsStr label "대회장소" = false ∧ containsStr label "접수기간" = false ∧
  containsStr label "홈페이지" = false

instance (label : String) : Decidable (unrecognizedLabel label) := by
  unfold unrecognizedLabel; infer_instance

/-- Routing of a row's collapsed label through the dispatch chain of the
row loop: index 0-5 selects one of the six text fields in source order,
6 the homepage branch, 7 none (empty or unrecognized label). -/
def labelRoute (label : String) : Nat :=
  if label = "" then 7
  else if containsStr label "대회명" then 0
  else if containsStr label "대회일시" then 1
  else if containsStr label "대회종목" then 2
  else if containsStr label "대회지역" then 3
  else if containsStr label "대회장소" then 4
  else if containsStr label "접수기간" then 5
  else if containsStr label "홈페이지" then 6
  else 7

/-- The row has at least two cells and its label routes to branch `i`. -/
def assignsField (i : Nat) : List Cell → Bool
  | c0 :: _ :: _ => labelRoute (clean c0.text) == i
  | _ => false

/-- Projection of the scan state onto the i-th text field. -/
def getTextField : Nat → RowState → String
  | 0 => RowState.raceName
  | 1 => RowState.dateRaw
  | 2 => RowState.courseRaw
  | 3 => RowState.region
  | 4 => RowState.venue
  | _ => RowState.entryRaw

/-- The raw captured value of a row: the collapsed text of its last cell. -/
def rowValue : List Cell → String
  | _ :: c1 :: rest => clean (lastCell c1 rest).text
  | _ => ""

/-- The URL a homepage row yields: the value cell's first anchor's
nonempty href, else the first URL token of the value text, else none. -/
def homepageValue : List Cell → Option String
  | _ :: c1 :: rest =>
    match (lastCell c1 rest).anchors with
    | some href :: _ =>
      if href ≠ "" then some href
      else (scanList urlAt (clean (lastCell c1 rest).text).toList).map String.mk
    | _ => (scanList urlAt (clean (lastCell c1 rest).text).toList).map String.mk
  | _ => none

/-- Lemma: homepageFallback only ever touches the homepage field. -/
theorem homepageFallback_textFields (st : RowState) (v : String) :
    ∃ hp, homepageFallback st v = { st with homepage := hp } := by
  cases h : scanList urlAt v.toList with
  | none =>
    have h2 : scanList urlAt v.data = none := h
    exact ⟨st.homepage, by simp [homepageFallback, h, h2]⟩
  | some u =>
    have h2 : scanList urlAt v.data = some u := h
    exact ⟨some (String.mk u), by simp [homepageFallback, h, h2]⟩

/-- Lemma: the homepage branch only ever touches the homepage field. -/
theorem homeUpdate_textFields (st : RowState) (vt : Cell) (v : String) :
    ∃ hp, homeUpdate st vt v = { st with homepage := hp } := by
  cases han : vt.anchors with
  | nil => simpa [homeUpdate, han] using homepageFallback_textFields st v
  | cons a tl =>
    cases a with
    | none => simpa [homeUpdate, han] using homepageFallback_textFields st v
    | some href =>
      by_cases hh : href = ""
      · simpa [homeUpdate, han, hh] using homepageFallback_textFields st v
      · exact ⟨some href, by simp [homeUpdate, han, hh]⟩

/-- The homepage branch preserves the name capture. -/
theorem homeUpdate_raceName (st : RowState) (vt : Cell) (v : String) :
    (homeUpdate st vt v).raceName = st.raceName := by
  obtain ⟨hp, heq⟩ := homeUpdate_textFields st vt v
  rw [heq]

/-- The homepage branch preserves the date capture. -/
theorem homeUpdate_dateRaw (st : RowState) (vt : Cell) (v : String) :
    (homeUpdate st vt v).dateRaw = st.dateRaw := by
  obtain ⟨hp, heq⟩ := homeUpdate_textFields st vt v
  rw [heq]

/-- The homepage branch preserves the category capture. -/
theorem homeUpdate_courseRaw (st : RowState) (vt : Cell) (v : String) :
    (homeUpdate st vt v).courseRaw = st.courseRaw := by
  obtain ⟨hp, heq⟩ := homeUpdate_textFields st vt v
  rw [heq]

/-- The homepage branch preserves the region capture. -/
theorem homeUpdate_region (st : RowState) (vt : Cell) (v : String) :
    (homeUpdate st vt v).region = st.region := by
  obtain ⟨hp, heq⟩ := homeUpdate_textFields st vt v
  rw [heq]

/-- The homepage branch preserves the venue capture. -/
theorem homeUpdate_venue (st : RowState) (vt : Cell) (v : String) :
    (homeUpdate st vt v).venue = st.venue := by
  obtain ⟨hp, heq⟩ := homeUpdate_textFields st vt v
  rw [heq]

/-- The homepage branch preserves the entry-period capture. -/
theorem homeUpdate_entryRaw (st : RowState) (vt : Cell) (v : String) :
    (homeUpdate st vt v).entryRaw = st.entryRaw := by
  obtain ⟨hp, heq⟩ := homeUpdate_textFields st vt v
  rw [heq]

/-- Upper bound of the dispatch routing index. -/
theorem labelRoute_le (label : String) : labelRoute label ≤ 7 := by
  unfold labelRoute
  split_ifs <;> omega

/-- Lemma: the row loop body as a single dispatch on the routed index. -/
theorem stepRow_cases (st : RowState) (c0 c1 : Cell) (rest : List Cell) :
    stepRow st (c0 :: c1 :: rest) =
      match labelRoute (clean c0.text) with
      | 0 => { st with raceName := rowValue (c0 :: c1 :: rest) }
      | 1 => { st with dateRaw := rowValue (c0 :: c1 :: rest) }
      | 2 => { st with courseRaw := rowValue (c0 :: c1 :: rest) }
      | 3 => { st with region := rowValue (c0 :: c1 :: rest) }
      | 4 => { st with venue := rowValue (c0 :: c1 :: rest) }
      | 5 => { st with entryRaw := rowValue (c0 :: c1 :: rest) }
      | 6 => homeUpdate st (lastCell c1 rest) (rowValue (c0 :: c1 :: rest))
      | _ => st := by
  simp only [stepRow, labelRoute, rowValue]
  split_ifs <;> rfl

/-- Lemma: a row routed to text branch i sets exactly that field to its
captured value. -/
theorem stepRow_assign (i : Nat) (hi : i < 6) (st : RowState)
    (c0 c1 : Cell) (rest : List Cell)
    (h : assignsField i (c0 :: c1 :: rest) = true) :
    getTextField i (stepRow st (c0 :: c1 :: rest)) = rowValue (c0 :: c1 :: rest) := by
  have hr : labelRoute (clean c0.text) = i := by
    simpa [assignsField] using h
  rw [stepRow_cases, hr]
  interval_cases i <;> rfl

/-- Lemma: a row not routed to text branch i leaves that field unchanged. -/
theorem stepRow_preserve (i : Nat) (hi : i < 6) (st : RowState) (row : List Cell)
    (h : assignsField i row = false) :
    getTextField i (stepRow st row) = getTextField i st := by
  rcases row with _ | ⟨c0, _ | ⟨c1, rest⟩⟩
  · rfl
  · rfl
  · have hr : labelRoute (clean c0.text) ≠ i := by
      simp only [assignsField] at h
      intro heq
      rw [heq] at h
      simp at h
    rw [stepRow_cases]
    have h7 := labelRoute_le (clean c0.text)
    set r := labelRoute (clean c0.text) with hrd
    interval_cases r <;> interval_cases i <;>
      first
        | exact absurd rfl hr
        | rfl
        | simp [getTextField, homeUpdate_raceName, homeUpdate_dateRaw,
            homeUpdate_courseRaw, homeUpdate_region, homeUpdate_venue,
            homeUpdate_entryRaw]

/-- Lemma: rows not routed to text branch i never change that field. -/
theorem foldl_textField_preserve (i : Nat) (hi : i < 6) (st : RowState)
    (rows : List (List Cell)) (h : ∀ r ∈ rows, assignsField i r = false) :
    getTextField i (List.foldl stepRow st rows) = getTextField i st := by
  induction rows generalizing st with
  | nil => rfl
  | cons r rs ih =>
    rw [List.foldl_cons, ih (stepRow st r) (fun x hx => h x (List.mem_cons_of_mem r hx)),
      stepRow_preserve i hi st r (h r (List.mem_cons_self r rs))]

/-- Lemma: a row not routed to the homepage branch leaves the homepage
unchanged. -/
theorem stepRow_homepage_preserve (st : RowState) (row : List Cell)
    (h : assignsField 6 row = false) :
    (stepRow st row).homepage = st.homepage := by
  rcases row with _ | ⟨c0, _ | ⟨c1, rest⟩⟩
  · rfl
  · rfl
  · have hr : labelRoute (clean c0.text) ≠ 6 := by
      simp only [assignsField] at h
      intro heq
      rw [heq] at h
      simp at h
    rw [stepRow_cases]
    have h7 := labelRoute_le (clean c0.text)
    set r := labelRoute (clean c0.text) with hrd
    interval_cases r <;> first | exact absurd rfl hr | rfl

/-- Lemma: a row routed to the homepage branch sets the homepage to its
yielded URL, and keeps the previous homepage when it yields none. -/
theorem stepRow_home (st : RowState) (c0 c1 : Cell) (rest : List Cell)
    (h : assignsField 6 (c0 :: c1 :: rest) = true) :
    stepRow st (c0 :: c1 :: rest) =
      match homepageValue (c0 :: c1 :: rest) with
      | some u => { st with homepage := some u }
      | none => st := by
  have hr : labelRoute (clean c0.text) = 6 := by simpa [assignsField] using h
  rw [stepRow_cases, hr]
  cases han : (lastCell c1 rest).anchors with
  | nil =>
    cases hscan : scanList urlAt (clean (lastCell c1 rest).text).toList with
    | none =>
      have hscan2 : scanList urlAt (clean (lastCell c1 rest).text).data = none := hscan
      simp [homeUpdate, homepageValue, homepageFallback, rowValue, han, hscan, hscan2]
    | some u =>
      have hscan2 : scanList urlAt (clean (lastCell c1 rest).text).data = some u := hscan
      simp [homeUpdate, homepageValue, homepageFallback, rowValue, han, hscan, hscan2]
  | cons a tl =>
    cases a with
    | none =>
      cases hscan : scanList urlAt (clean (lastCell c1 rest).text).toList with
      | none =>
        have hscan2 : scanList urlAt (clean (lastCell c1 rest).text).data = none := hscan
        simp [homeUpdate, homepageValue, homepageFallback, rowValue, han, hscan, hscan2]
      | some u =>
        have hscan2 : scanList urlAt (clean (lastCell c1 rest).text).data = some u := hscan
        simp [homeUpdate, homepageValue, homepageFallback, rowValue, han, hscan, hscan2]
    | some href =>
      by_cases hh : href = ""
      · subst hh
        cases hscan : scanList urlAt (clean (lastCell c1 rest).text).toList with
        | none =>
          have hscan2 : scanList urlAt (clean (lastCell c1 rest).text).data = none := hscan
          simp [homeUpdate, homepageValue, homepageFallback, rowValue, han, hscan, hscan2]
        | some u =>
          have hscan2 : scanList urlAt (clean (lastCell c1 rest).text).data = some u := hscan
          simp [homeUpdate, homepageValue, homepageFallback, rowValue, han, hscan, hscan2]
      · simp [homeUpdate, homepageValue, rowValue, han, hh]

/-- Lemma: rows that are not homepage rows yielding a URL never change
the homepage. -/
theorem foldl_homepage_preserve (st : RowState) (rows : List (List Cell))
    (h : ∀ r ∈ rows, assignsField 6 r = false ∨ homepageValue r = none) :
    (List.foldl stepRow st rows).homepage = st.homepage := by
  induction rows generalizing st with
  | nil => rfl
  | cons r rs ih =>
    rw [List.foldl_cons, ih (stepRow st r) (fun x hx => h x (List.mem_cons_of_mem r hx))]
    rcases h r (List.mem_cons_self r rs) with hf | hv
    · exact stepRow_homepage_preserve st r hf
    · cases hb : assignsField 6 r with
      | false => exact stepRow_homepage_preserve st r hb
      | true =>
        rcases r with _ | ⟨c0, _ | ⟨c1, rest⟩⟩
        · rfl
        · rfl
        · rw [stepRow_home st c0 c1 rest hb, hv]

/-- Counterexample to C9 as stated: in a document whose two 홈페이지 rows
are a URL-bearing row followed by a URL-less row, the record's homepage is
the FIRST matching row's URL; the second conjunct shows the last matching
row on its own assigns no homepage at all, so the value assigned is not
that of the last matching row. -/
theorem lastRowWins_counterexample :
    (match fetchRaceDetail "9"
        [[{ text := "홈페이지", anchors := [] },
          { text := "https://a.example", anchors := [] }],
         [{ text := "홈페이지", anchors := [] },
          { text := "준비중", anchors := [] }]] with
      | Except.ok r => r.homepage
      | Except.error _ => none) = some "https://a.example" ∧
    (scanRows [[{ text := "홈페이지", anchors := [] },
        { text := "준비중", anchors := [] }]]).homepage = none := by
  exact ⟨by decide, by decide⟩

/-- C9 (amended): for each of the six text-valued recognized labels, the
captured field value is that of the LAST row the dispatch chain routes to
that label, in every document and regardless of the other rows; the record
copies the name and entry-period captures unchanged; for the homepage
label the last matching row wins exactly when it yields a URL (nonempty
anchor href, else a URL token in the value text), and a matching row
yielding no URL keeps the previously captured homepage; rows with
unrecognized labels are silently skipped with no effect on the record. -/
theorem lastRowWins_amended :
    (∀ i : Nat, i < 6 →
      ∀ (rows1 rows2 : List (List Cell)) (c0 c1 : Cell) (rest : List Cell),
        assignsField i (c0 :: c1 :: rest) = true →
        (∀ r ∈ rows2, assignsField i r = false) →
        getTextField i (scanRows (rows1 ++ (c0 :: c1 :: rest) :: rows2)) =
          rowValue (c0 :: c1 :: rest)) ∧
    (∀ (no : String) (st : RowState),
        (finalize no st).race_name = st.raceName ∧
        (finalize no st).entry_period_raw = st.entryRaw) ∧
    (∀ (rows1 rows2 : List (List Cell)) (c0 c1 : Cell) (rest : List Cell) (u : String),
        assignsField 6 (c0 :: c1 :: rest) = true →
        homepageValue (c0 :: c1 :: rest) = some u →
        (∀ r ∈ rows2, assignsField 6 r = false ∨ homepageValue r = none) →
        (scanRows (rows1 ++ (c0 :: c1 :: rest) :: rows2)).homepage = some u) ∧
    (∀ (st : RowState) (c0 c1 : Cell) (rest : List Cell),
        assignsField 6 (c0 :: c1 :: rest) = true →
        homepageValue (c0 :: c1 :: rest) = none →
        stepRow st (c0 :: c1 :: rest) = st) ∧
    (∀ (st : RowState) (c0 c1 : Cell) (rest : List Cell),
        unrecognizedLabel (clean c0.text) →
        stepRow st (c0 :: c1 :: rest) = st) ∧
    (∀ (no : String) (rows1 rows2 : List (List Cell)) (c0 c1 : Cell) (rest : List Cell),
        unrecognizedLabel (clean c0.text) → rows1 ++ rows2 ≠ [] →
        fetchRaceDetail no (rows1 ++ (c0 :: c1 :: rest) :: rows2) =
          fetchRaceDetail no (rows1 ++ rows2)) := by
  have hskip : ∀ (st : RowState) (c0 c1 : Cell) (rest : List Cell),
      unrecognizedLabel (clean c0.text) → stepRow st (c0 :: c1 :: rest) = st := by
    intro st c0 c1 rest h
    obtain ⟨h1, h2, h3, h4, h5, h6, h7⟩ := h
    by_cases hl : clean c0.text = "" <;>
      simp [stepRow, hl, h1, h2, h3, h4, h5, h6, h7]
  refine ⟨?_, ?_, ?_, ?_, hskip, ?_⟩
  · intro i hi rows1 rows2 c0 c1 rest hassign hrest
    simp only [scanRows, List.foldl_append, List.foldl_cons]
    rw [foldl_textField_preserve i hi _ rows2 hrest]
    exact stepRow_assign i hi _ c0 c1 rest hassign
  · intro no st
    exact ⟨rfl, rfl⟩
  · intro rows1 rows2 c0 c1 rest u hassign hval hrest
    simp only [scanRows, List.foldl_append, List.foldl_cons]
    rw [foldl_homepage_preserve _ rows2 hrest, stepRow_home _ c0 c1 rest hassign, hval]
  · intro st c0 c1 rest hassign hval
    rw [stepRow_home st c0 c1 rest hassign, hval]
  · intro no rows1 rows2 c0 c1 rest hu hne
    have h1 : rows1 ++ (c0 :: c1 :: rest) :: rows2 ≠ [] := by
      intro h; cases rows1 <;> simp_all
    have hscan : scanRows (rows1 ++ (c0 :: c1 :: rest) :: rows2) =
        scanRows (rows1 ++ rows2) := by
      simp only [scanRows, List.foldl_append, List.foldl_cons]
      rw [hskip _ c0 c1 rest hu]
    simp [fetchRaceDetail, h1, hne, hscan]

/-- Witness for C9 (amended): the name field of a document with two name
rows and a later date row takes the second name; a homepage URL survives a
later URL-less homepage row; the URL-less homepage row alone is a no-op. -/
theorem lastRowWins_amended_witness :
    getTextField 0 (scanRows
        ([[{ text := "대회명", anchors := [] }, { text := "A", anchors := [] }]] ++
          ({ text := "대회명", anchors := [] } :: { text := "B", anchors := [] } :: []) ::
          [[{ text := "대회일시", anchors := [] },
            { text := "2026년1월1일", anchors := [] }]])) =
      rowValue ({ text := "대회명", anchors := [] } :: { text := "B", anchors := [] } :: []) ∧
    (scanRows ([] ++
        ({ text := "홈페이지", anchors := [] } ::
          { text := "https://a.example", anchors := [] } :: []) ::
        [[{ text := "홈페이지", anchors := [] },
          { text := "준비중", anchors := [] }]])).homepage =
      some "https://a.example" ∧
    stepRow initState ({ text := "홈페이지", anchors := [] } ::
        { text := "준비중", anchors := [] } :: []) = initState :=
  ⟨lastRowWins_amended.1 0 (by decide)
      [[{ text := "대회명", anchors := [] }, { text := "A", anchors := [] }]]
      [[{ text := "대회일시", anchors := [] }, { text := "2026년1월1일", anchors := [] }]]
      { text := "대회명", anchors := [] } { text := "B", anchors := [] } []
      (by decide) (by decide),
   lastRowWins_amended.2.2.1 []
      [[{ text := "홈페이지", anchors := [] }, { text := "준비중", anchors := [] }]]
      { text := "홈페이지", anchors := [] } { text := "https://a.example", anchors := [] } []
      "https://a.example" (by decide) (by decide) (by decide),
   lastRowWins_amended.2.2.2.1 initState { text := "홈페이지", anchors := [] }
      { text := "준비중", anchors := [] } [] (by decide) (by decide)⟩

/-- A record with the given name and every optional field absent, as used
in concrete sync scenarios. -/
def mkRace (n : String) : Race :=
  { source := "roadrun", source_id := "1"
    source_url := BASE_URL ++ "/view.php?no=1"
    race_name := n, race_datetime := none, course := []
    location_full := "", entry_period_raw := ""
    entry_start := none, entry_end := none, homepage := none }

/-- Build a sync environment from its four components. -/
def mkEnv (tok dbId : Option String) (qn : QueryNet) (wf : Bool) : SyncEnv :=
  { cfg := { token := tok, dbId := dbId }, queryNet := qn, writeFails := wf }

/-- A sync environment with both secrets present, a reachable store, and
succeeding writes. -/
def envStd : SyncEnv := mkEnv (some "token") (some "db") QueryNet.ok false

/-- The store resulting from a sync call, the empty store on error. -/
def storeAfter (r : List Action × Except String (List Page)) : List Page :=
  match r.2 with
  | Except.ok s => s
  | Except.error _ => []

/-- Every page identifier in the store is below the fresh identifier. -/
theorem id_lt_freshId (store : List Page) (p : Page) (hp : p ∈ store) :
    p.id < freshId store := by
  have : p.id ≤ store.foldr (fun q m => max q.id m) 0 := by
    induction store with
    | nil => cases hp
    | cons a l ih =>
      rcases List.mem_cons.mp hp with rfl | hmem
      · exact le_max_left _ _
      · exact le_trans (ih hmem) (le_max_right _ _)
  simpa [freshId] using Nat.lt_succ_of_le this

/-- Updating an identifier that no page carries leaves the store
unchanged. -/
theorem updateStore_noop (store : List Page) (pid : Nat) (props : Props)
    (h : ∀ p ∈ store, p.id ≠ pid) : updateStore store pid props = store := by
  induction store with
  | nil => rfl
  | cons a l ih =>
    simp only [updateStore, List.map_cons]
    rw [if_neg (h a (List.mem_cons_self a l))]
    have := ih (fun p hp => h p (List.mem_cons_of_mem a hp))
    simpa [updateStore] using this

/-- C1: with store configuration present and the store reachable, upsert
first issues the Name-equality query for the record's name; one or more
matches yield exactly one update on the first match's identifier with the
mapped properties and no create; no matches yield exactly one create with
the mapped properties under the configured database and no update. -/
theorem upsert_branches (env : SyncEnv) (store : List Page) (race : Race)
    (tk db : String)
    (htk : env.cfg.token = some tk) (hdb : env.cfg.dbId = some db)
    (hnet : env.queryNet = QueryNet.ok) :
    (∀ (p : Page) (rest : List Page),
        queryStore store race.race_name = p :: rest →
        (upsertRaceToNotion env store race).1 =
          [Action.query race.race_name,
           Action.update p.id (buildProperties race)] ∧
        countUpdates (upsertRaceToNotion env store race).1 = 1 ∧
        countCreates (upsertRaceToNotion env store race).1 = 0) ∧
    (queryStore store race.race_name = [] →
        (upsertRaceToNotion env store race).1 =
          [Action.query race.race_name,
           Action.create db (buildProperties race)] ∧
        countCreates (upsertRaceToNotion env store race).1 = 1 ∧
        countUpdates (upsertRaceToNotion env store race).1 = 0) := by
  constructor
  · intro p rest hq
    have : (upsertRaceToNotion env store race).1 =
        [Action.query race.race_name, Action.update p.id (buildProperties race)] := by
      simp [upsertRaceToNotion, queryByRaceName, htk, hdb, hnet, hq]
    refine ⟨this, ?_, ?_⟩ <;> rw [this] <;> rfl
  · intro hq
    have : (upsertRaceToNotion env store race).1 =
        [Action.query race.race_name, Action.create db (buildProperties race)] := by
      simp [upsertRaceToNotion, queryByRaceName, htk, hdb, hnet, hq]
    refine ⟨this, ?_, ?_⟩ <;> rw [this] <;> rfl

/-- Witness for C1: both branches at concrete stores — one with a matching
page, one empty. -/
theorem upsert_branches_witness :
    (upsertRaceToNotion envStd [{ id := 7, props := buildProperties (mkRace "A") }]
        (mkRace "A")).1 =
      [Action.query "A", Action.update 7 (buildProperties (mkRace "A"))] ∧
    (upsertRaceToNotion envStd [] (mkRace "A")).1 =
      [Action.query "A", Action.create "db" (buildProperties (mkRace "A"))] :=
  ⟨((upsert_branches envStd [{ id := 7, props := buildProperties (mkRace "A") }]
      (mkRace "A") "token" "db" rfl rfl rfl).1
      { id := 7, props := buildProperties (mkRace "A") } [] (by decide)).1,
   ((upsert_branches envStd [] (mkRace "A") "token" "db" rfl rfl rfl).2 rfl).1⟩

/-- C10: a record with an empty name is stored under the placeholder title
`(제목 없음)` while the preceding existence query still filters on the
empty name, so the stored title differs from the record's name. -/
theorem emptyName_spec :
    (∀ race : Race, race.race_name = "" →
        (buildProperties race).nameTitle = "(제목 없음)") ∧
    (∀ (env : SyncEnv) (store : List Page) (race : Race) (tk db : String),
        env.cfg.token = some tk → env.cfg.dbId = some db →
        env.queryNet = QueryNet.ok → env.writeFails = false →
        race.race_name = "" → queryStore store "" = [] →
        (upsertRaceToNotion env store race).1 =
          [Action.query "", Action.create db (buildProperties race)] ∧
        (upsertRaceToNotion env store race).2 =
          Except.ok (store ++ [{ id := freshId store, props := buildProperties race }]) ∧
        (buildProperties race).nameTitle ≠ race.race_name) := by
  constructor
  · intro race h; simp [buildProperties, h]
  · intro env store race tk db htk hdb hnet hw hname hq
    refine ⟨?_, ?_, ?_⟩
    · simp [upsertRaceToNotion, queryByRaceName, htk, hdb, hnet, hname, hq]
    · simp [upsertRaceToNotion, queryByRaceName, htk, hdb, hnet, hw, hname, hq]
    · rw [hname]; simp [buildProperties, hname]

/-- Witness for C10: the empty-name record on the empty store. -/
theorem emptyName_spec_witness :
    (upsertRaceToNotion envStd [] (mkRace "")).1 =
      [Action.query "", Action.create "db" (buildProperties (mkRace ""))] ∧
    (buildProperties (mkRace "")).nameTitle ≠ (mkRace "").race_name :=
  ⟨(emptyName_spec.2 envStd [] (mkRace "") "token" "db" rfl rfl rfl rfl rfl rfl).1,
   (emptyName_spec.2 envStd [] (mkRace "") "token" "db" rfl rfl rfl rfl rfl rfl).2.2⟩

/-- Counterexample to C2 as stated: for the (valid-but-degenerate) empty
name, the first upsert creates a page titled with the placeholder, the
second upsert's query for the empty name finds no match, and a second page
is created — two pages after two upserts, no update issued. -/
theorem upsert_dup_counterexample :
    (storeAfter (upsertRaceToNotion envStd [] (mkRace ""))).length = 1 ∧
    countUpdates (upsertRaceToNotion envStd
        (storeAfter (upsertRaceToNotion envStd [] (mkRace ""))) (mkRace "")).1 = 0 ∧
    countCreates (upsertRaceToNotion envStd
        (storeAfter (upsertRaceToNotion envStd [] (mkRace ""))) (mkRace "")).1 = 1 ∧
    (storeAfter (upsertRaceToNotion envStd
        (storeAfter (upsertRaceToNotion envStd [] (mkRace ""))) (mkRace ""))).length = 2 := by
  refine ⟨by decide, by decide, by decide, by decide⟩

/-- C2 (amended to nonempty names): with store configuration present,
sequential invocation, and a nonempty name with no pre-existing match, the
first upsert creates a page with that title and the second upsert updates
exactly that page — no second create — so the store still holds exactly
one page with that title. -/
theorem upsert_idempotent (env : SyncEnv) (store0 : List Page)
    (name tk db : String) (r1 r2 : Race)
    (htk : env.cfg.token = some tk) (hdb : env.cfg.dbId = some db)
    (hnet : env.queryNet = QueryNet.ok) (hw : env.writeFails = false)
    (hn1 : r1.race_name = name) (hn2 : r2.race_name = name) (hne : name ≠ "")
    (h0 : queryStore store0 name = []) :
    (upsertRaceToNotion env store0 r1).2 =
      Except.ok (store0 ++ [{ id := freshId store0, props := buildProperties r1 }]) ∧
    countCreates (upsertRaceToNotion env store0 r1).1 = 1 ∧
    (upsertRaceToNotion env
        (store0 ++ [{ id := freshId store0, props := buildProperties r1 }]) r2).1 =
      [Action.query name, Action.update (freshId store0) (buildProperties r2)] ∧
    (upsertRaceToNotion env
        (store0 ++ [{ id := freshId store0, props := buildProperties r1 }]) r2).2 =
      Except.ok (store0 ++ [{ id := freshId store0, props := buildProperties r2 }]) ∧
    (queryStore (store0 ++ [{ id := freshId store0, props := buildProperties r2 }])
        name).length = 1 := by
  have htitle1 : (buildProperties r1).nameTitle = name := by
    simp [buildProperties, hn1, hne]
  have htitle2 : (buildProperties r2).nameTitle = name := by
    simp [buildProperties, hn2, hne]
  have hq0 : queryStore store0 r1.race_name = [] := by rw [hn1]; exact h0
  have hstep1 : (upsertRaceToNotion env store0 r1).2 =
      Except.ok (store0 ++ [{ id := freshId store0, props := buildProperties r1 }]) := by
    simp [upsertRaceToNotion, queryByRaceName, htk, hdb, hnet, hw, hq0]
  have hcnt1 : countCreates (upsertRaceToNotion env store0 r1).1 = 1 := by
    have : (upsertRaceToNotion env store0 r1).1 =
        [Action.query r1.race_name, Action.create db (buildProperties r1)] := by
      simp [upsertRaceToNotion, queryByRaceName, htk, hdb, hnet, hq0]
    rw [this]; rfl
  have hq1 : queryStore
      (store0 ++ [{ id := freshId store0, props := buildProperties r1 }]) name =
      [{ id := freshId store0, props := buildProperties r1 }] := by
    simp only [queryStore, List.filter_append]
    rw [show store0.filter (fun p => decide (p.props.nameTitle = name)) = [] from h0]
    simp [htitle1]
  have hupd : updateStore
      (store0 ++ [{ id := freshId store0, props := buildProperties r1 }])
      (freshId store0) (buildProperties r2) =
      store0 ++ [{ id := freshId store0, props := buildProperties r2 }] := by
    simp only [updateStore, List.map_append]
    rw [show store0.map (fun p => if p.id = freshId store0
          then { p with props := buildProperties r2 } else p) = store0 by
      have := updateStore_noop store0 (freshId store0) (buildProperties r2)
        (fun p hp => Nat.ne_of_lt (id_lt_freshId store0 p hp))
      simpa [updateStore] using this]
    simp
  refine ⟨hstep1, hcnt1, ?_, ?_, ?_⟩
  · simp [upsertRaceToNotion, queryByRaceName, htk, hdb, hnet, hq1, hn2]
  · simp [upsertRaceToNotion, queryByRaceName, htk, hdb, hnet, hw, hq1, hupd, hn2]
  · simp only [queryStore, List.filter_append]
    rw [show store0.filter (fun p => decide (p.props.nameTitle = name)) = [] from h0]
    simp [htitle2]

/-- Witness for C2 (amended): the two-upsert scenario at the name `A` on
the empty store. -/
theorem upsert_idempotent_witness :
    (upsertRaceToNotion envStd
        ([] ++ [{ id := freshId [], props := buildProperties (mkRace "A") }])
        (mkRace "A")).1 =
      [Action.query "A", Action.update (freshId []) (buildProperties (mkRace "A"))] :=
  (upsert_idempotent envStd [] "A" "token" "db" (mkRace "A") (mkRace "A")
    rfl rfl rfl rfl rfl rfl (by decide) rfl).2.2.1

/-- Counterexample to C3 as stated: with configuration present and the
store unreachable, the query step raises (the fetch rejection propagates)
instead of returning the empty list. -/
theorem findExisting_counterexample :
    (queryByRaceName (mkEnv (some "t") (some "d") QueryNet.unreachable false)
        [] "x").2 = Except.error "fetch failed" ∧
    (queryByRaceName (mkEnv (some "t") (some "d") QueryNet.unreachable false)
        [] "x").2 ≠ Except.ok [] := by
  exact ⟨rfl, fun h => Except.noConfusion h⟩

/-- C3 (amended): the query step returns the empty list rather than
raising when the API token or the database id is absent, and likewise on a
non-2xx query response — the upsert then falls back to a create — while a
transport-level failure on the query propagates, and errors on
create/update are not swallowed and abort that record's sync. -/
theorem findExisting_spec :
    (∀ (env : SyncEnv) (store : List Page) (name : String),
        env.cfg.dbId = none →
        queryByRaceName env store name = ([], Except.ok [])) ∧
    (∀ (env : SyncEnv) (store : List Page) (name db : String),
        env.cfg.dbId = some db → env.cfg.token = none →
        queryByRaceName env store name = ([], Except.ok [])) ∧
    (∀ (env : SyncEnv) (store : List Page) (name tk db : String),
        env.cfg.dbId = some db → env.cfg.token = some tk →
        env.queryNet = QueryNet.httpError →
        queryByRaceName env store name = ([Action.query name], Except.ok [])) ∧
    (∀ (env : SyncEnv) (store : List Page) (race : Race) (tk db : String),
        env.cfg.dbId = some db → env.cfg.token = some tk →
        env.queryNet = QueryNet.httpError →
        (upsertRaceToNotion env store race).1 =
          [Action.query race.race_name, Action.create db (buildProperties race)]) ∧
    (∀ (env : SyncEnv) (store : List Page) (name tk db : String),
        env.cfg.dbId = some db → env.cfg.token = some tk →
        env.queryNet = QueryNet.unreachable →
        (queryByRaceName env store name).1 = [Action.query name] ∧
        isErr (queryByRaceName env store name).2 = true) ∧
    (∀ (env : SyncEnv) (store : List Page) (race : Race) (tk db : String),
        env.cfg.dbId = some db → env.cfg.token = some tk →
        env.queryNet = QueryNet.ok → env.writeFails = true →
        isErr (upsertRaceToNotion env store race).2 = true) := by
  refine ⟨?_, ?_, ?_, ?_, ?_, ?_⟩
  · intro env store name h; simp [queryByRaceName, h]
  · intro env store name db hdb htk; simp [queryByRaceName, hdb, htk]
  · intro env store name tk db hdb htk hnet; simp [queryByRaceName, hdb, htk, hnet]
  · intro env store race tk db hdb htk hnet
    simp [upsertRaceToNotion, queryByRaceName, hdb, htk, hnet]
  · intro env store name tk db hdb htk hnet
    exact ⟨by simp [queryByRaceName, hdb, htk, hnet],
      by simp [queryByRaceName, hdb, htk, hnet, isErr]⟩
  · intro env store race tk db hdb htk hnet hw
    cases hq : queryStore store race.race_name with
    | nil =>
      simp [upsertRaceToNotion, queryByRaceName, hdb, htk, hnet, hw, hq, isErr]
    | cons p rest =>
      simp [upsertRaceToNotion, queryByRaceName, hdb, htk, hnet, hw, hq, isErr]

/-- Witness for C3 (amended): missing configuration and a non-2xx response
degrade to the empty list with a fallback create; a failing write aborts. -/
theorem findExisting_spec_witness :
    queryByRaceName (mkEnv none (some "d") QueryNet.ok false) [] "x" =
      ([], Except.ok []) ∧
    (upsertRaceToNotion (mkEnv (some "t") (some "d") QueryNet.httpError false)
        [] (mkRace "A")).1 =
      [Action.query "A", Action.create "d" (buildProperties (mkRace "A"))] ∧
    isErr (upsertRaceToNotion (mkEnv (some "t") (some "d") QueryNet.ok true)
        [] (mkRace "A")).2 = true :=
  ⟨findExisting_spec.2.1 (mkEnv none (some "d") QueryNet.ok false) [] "x" "d" rfl rfl,
   findExisting_spec.2.2.2.1 (mkEnv (some "t") (some "d") QueryNet.httpError false)
      [] (mkRace "A") "t" "d" rfl rfl rfl,
   findExisting_spec.2.2.2.2.2 (mkEnv (some "t") (some "d") QueryNet.ok true)
      [] (mkRace "A") "t" "d" rfl rfl rfl rfl⟩

/-! ### Lemmas about the Korean date matcher (towards C7) -/

/-- A whitespace character is not a digit. -/
theorem ws_not_digit {c : Char} (h : isWs c = true) : isDigit c = false := by
  simp only [isWs, Bool.or_eq_true, decide_eq_true_eq] at h
  rcases h with ((((((rfl | rfl) | rfl) | rfl) | rfl) | rfl) | rfl) <;> decide

/-- A digit character is not whitespace. -/
theorem digit_not_ws {c : Char} (h : isDigit c = true) : isWs c = false := by
  by_contra hw
  rw [Bool.not_eq_false] at hw
  rw [ws_not_digit hw] at h
  exact Bool.noConfusion h

/-- Lemma: skipWs consumes exactly an all-whitespace block when the next
character is not whitespace. -/
theorem skipWs_append_cons (w : List Char) (a : Char) (t : List Char)
    (hw : ∀ c ∈ w, isWs c = true) (ha : isWs a = false) :
    skipWs (w ++ a :: t) = a :: t := by
  induction w with
  | nil => simp [skipWs, ha]
  | cons c cs ih =>
    have hc := hw c (List.mem_cons_self c cs)
    simp only [List.cons_append, skipWs, hc, if_true]
    exact ih (fun x hx => hw x (List.mem_cons_of_mem c hx))

/-- No character of `l` is a digit implies no four-digit run can start at
its head. -/
theorem take4Digits_fail_head {a : Char} (l : List Char) (ha : isDigit a = false) :
    take4Digits (a :: l) = none := by
  rcases l with _ | ⟨b, _ | ⟨c, _ | ⟨d, t⟩⟩⟩ <;> simp [take4Digits, ha]

/-- The date regex cannot match at a non-digit start position. -/
theorem kdateAt_fail_head {a : Char} (l : List Char) (ha : isDigit a = false) :
    kdateAt (a :: l) = none := by
  simp [kdateAt, take4Digits_fail_head l ha]

/-- Scanning skips over a digit-free block. -/
theorem scanList_skip_nondigits (pre : List Char) (good : List Char)
    (hp : ∀ c ∈ pre, isDigit c = false) :
    scanList kdateAt (pre ++ good) = scanList kdateAt good := by
  induction pre with
  | nil => rfl
  | cons c cs ih =>
    have hc := hp c (List.mem_cons_self c cs)
    simp only [List.cons_append, scanList, kdateAt_fail_head _ hc]
    exact ih (fun x hx => hp x (List.mem_cons_of_mem c hx))

/-- The head of a whitespace block followed by a non-digit glyph is never
a digit. -/
theorem head_not_digit_ws_glyph (w : List Char) (g : Char) (t : List Char)
    (hw : ∀ c ∈ w, isWs c = true) (hg : isDigit g = false) :
    ∀ b bt, w ++ g :: t = b :: bt → isDigit b = false := by
  intro b bt h
  cases w with
  | nil =>
    simp only [List.nil_append] at h
    cases h; exact hg
  | cons c cs =>
    simp only [List.cons_append, List.cons.injEq] at h
    rw [← h.1]
    exact ws_not_digit (hw c (List.mem_cons_self c cs))

/-- A one-digit run followed by a non-digit is taken as one digit. -/
theorem take12Digits_one {a : Char} (rest : List Char) (ha : isDigit a = true)
    (hr : ∀ b bt, rest = b :: bt → isDigit b = false) :
    take12Digits (a :: rest) = some (digitVal a, rest) := by
  cases rest with
  | nil => simp [take12Digits, ha]
  | cons b bt => simp [take12Digits, ha, hr b bt rfl]

/-- A two-digit run is taken greedily. -/
theorem take12Digits_two {a b : Char} (rest : List Char)
    (ha : isDigit a = true) (hb : isDigit b = true) :
    take12Digits (a :: b :: rest) = some (digitsVal [a, b], rest) := by
  simp [take12Digits, ha, hb]

/-- The dayjs date construction is the identity on calendar-valid
year/month/day triples with a year of at least 100. -/
theorem dayjsNorm_id (y m d : Nat) (hy : 100 ≤ y) (hm1 : 1 ≤ m) (hm2 : m ≤ 12)
    (hd1 : 1 ≤ d) (hd2 : d ≤ daysInMonth y m) : dayjsNorm y m d = (y, m, d) := by
  have hyq : ¬ y ≤ 99 := by omega
  have ht : y * 12 + m - 1 = (m - 1) + y * 12 := by omega
  have hdiv : ((m - 1) + y * 12) / 12 = y := by
    rw [Nat.add_mul_div_right _ _ (by norm_num : 0 < 12),
      Nat.div_eq_of_lt (by omega : m - 1 < 12)]
    omega
  have hmod : ((m - 1) + y * 12) % 12 = m - 1 := by
    rw [Nat.add_mul_mod_self_right, Nat.mod_eq_of_lt (by omega : m - 1 < 12)]
  have hd0 : d ≠ 0 := by omega
  simp only [dayjsNorm, if_neg hyq, ht, hdiv, hmod, if_neg hd0]
  have hm : m - 1 + 1 = m := by omega
  rw [hm]
  simp [rollDays, hd2]

/-- Items `\s*` then `\d{1,2}` with a whitespace-glyph continuation ahead:
the digit run `ms` is captured exactly. -/
theorem take12_after_ws (w ms wt : List Char) (g : Char) (t : List Char)
    (hw : ∀ c ∈ w, isWs c = true)
    (hms : ms.length = 1 ∨ ms.length = 2) (hmsd : ∀ c ∈ ms, isDigit c = true)
    (hwt : ∀ c ∈ wt, isWs c = true) (hg : isDigit g = false) :
    take12Digits (skipWs (w ++ (ms ++ (wt ++ (g :: t))))) =
      some (digitsVal ms, wt ++ (g :: t)) := by
  rcases ms with _ | ⟨m1, _ | ⟨m2, _ | ⟨m3, mt⟩⟩⟩
  · simp at hms
  · have hm1 : isDigit m1 = true := hmsd m1 (by simp)
    have hsw : skipWs (w ++ (m1 :: (wt ++ (g :: t)))) = m1 :: (wt ++ (g :: t)) :=
      skipWs_append_cons w m1 _ hw (digit_not_ws hm1)
    have h1 : take12Digits (m1 :: (wt ++ (g :: t))) =
        some (digitVal m1, wt ++ (g :: t)) :=
      take12Digits_one _ hm1 (head_not_digit_ws_glyph wt g t hwt hg)
    simp only [List.cons_append, List.nil_append]
    rw [hsw, h1]
    simp [digitsVal]
  · have hm1 : isDigit m1 = true := hmsd m1 (by simp)
    have hm2 : isDigit m2 = true := hmsd m2 (by simp)
    have hsw : skipWs (w ++ (m1 :: m2 :: (wt ++ (g :: t)))) =
        m1 :: m2 :: (wt ++ (g :: t)) :=
      skipWs_append_cons w m1 _ hw (digit_not_ws hm1)
    simp only [List.cons_append, List.nil_append]
    rw [hsw, take12Digits_two _ hm1 hm2]
  · simp at hms

/-- The date regex matches at the start of a well-formed pattern
occurrence and captures its three numbers. -/
theorem kdateAt_success (ys ms ds w1 w2 w3 w4 w5 rest : List Char)
    (hys : ys.length = 4) (hysd : ∀ c ∈ ys, isDigit c = true)
    (hms : ms.length = 1 ∨ ms.length = 2) (hmsd : ∀ c ∈ ms, isDigit c = true)
    (hds : ds.length = 1 ∨ ds.length = 2) (hdsd : ∀ c ∈ ds, isDigit c = true)
    (hw1 : ∀ c ∈ w1, isWs c = true) (hw2 : ∀ c ∈ w2, isWs c = true)
    (hw3 : ∀ c ∈ w3, isWs c = true) (hw4 : ∀ c ∈ w4, isWs c = true)
    (hw5 : ∀ c ∈ w5, isWs c = true) :
    kdateAt (ys ++ (w1 ++ ('년' ::
        (w2 ++ (ms ++ (w3 ++ ('월' ::
        (w4 ++ (ds ++ (w5 ++ ('일' :: rest)))))))))))
      = some (digitsVal ys, digitsVal ms, digitsVal ds) := by
  rcases ys with _ | ⟨a, _ | ⟨b, _ | ⟨c, _ | ⟨d, _ | ⟨e, t0⟩⟩⟩⟩⟩ <;> simp at hys
  have ha : isDigit a = true := hysd a (by simp)
  have hb : isDigit b = true := hysd b (by simp)
  have hc : isDigit c = true := hysd c (by simp)
  have hd : isDigit d = true := hysd d (by simp)
  have h4 : take4Digits (([a, b, c, d] : List Char) ++
      (w1 ++ ('년' :: (w2 ++ (ms ++ (w3 ++ ('월' ::
        (w4 ++ (ds ++ (w5 ++ ('일' :: rest))))))))))) =
      some (digitsVal [a, b, c, d],
        w1 ++ ('년' :: (w2 ++ (ms ++ (w3 ++ ('월' ::
          (w4 ++ (ds ++ (w5 ++ ('일' :: rest)))))))))) := by
    simp [take4Digits, ha, hb, hc, hd]
  have hsw1 : skipWs (w1 ++ ('년' :: (w2 ++ (ms ++ (w3 ++ ('월' ::
      (w4 ++ (ds ++ (w5 ++ ('일' :: rest)))))))))) =
      '년' :: (w2 ++ (ms ++ (w3 ++ ('월' ::
        (w4 ++ (ds ++ (w5 ++ ('일' :: rest)))))))) :=
    skipWs_append_cons _ _ _ hw1 (by decide)
  have hmo := take12_after_ws w2 ms w3 '월'
    (w4 ++ (ds ++ (w5 ++ ('일' :: rest)))) hw2 hms hmsd hw3 (by decide)
  have hsw3 : skipWs (w3 ++ ('월' :: (w4 ++ (ds ++ (w5 ++ ('일' :: rest)))))) =
      '월' :: (w4 ++ (ds ++ (w5 ++ ('일' :: rest)))) :=
    skipWs_append_cons _ _ _ hw3 (by decide)
  have hda := take12_after_ws w4 ds w5 '일' rest hw4 hds hdsd hw5 (by decide)
  have hsw5 : skipWs (w5 ++ ('일' :: rest)) = '일' :: rest :=
    skipWs_append_cons _ _ _ hw5 (by decide)
  simp only [List.cons_append, List.nil_append] at h4 hsw1 hmo hsw3 hda hsw5 ⊢
  simp [kdateAt, h4, hsw1, hmo, hsw3, hda, hsw5, expectC]

/-- A successful position match makes the scan succeed when it starts at
the first position. -/
theorem scanList_hit (f : List Char → Option α) (c : Char) (t : List Char)
    (v : α) (hf : f (c :: t) = some v) : scanList f (c :: t) = some v := by
  simp [scanList, hf]

/-- Lemma: skipWs splits off an all-whitespace block. -/
theorem skipWs_decomp (l : List Char) :
    ∃ w, l = w ++ skipWs l ∧ ∀ c ∈ w, isWs c = true := by
  induction l with
  | nil => exact ⟨[], rfl, by simp⟩
  | cons c cs ih =>
    by_cases hc : isWs c = true
    · obtain ⟨w, hw1, hw2⟩ := ih
      refine ⟨c :: w, ?_, ?_⟩
      · simp only [skipWs, hc, if_true, List.cons_append]
        exact congrArg (c :: ·) hw1
      · intro x hx
        rcases List.mem_cons.mp hx with rfl | h
        · exact hc
        · exact hw2 x h
    · refine ⟨[], ?_, by simp⟩
      simp [skipWs, hc]

/-- Inversion of `expectC`. -/
theorem expectC_decomp {c : Char} {l r : List Char} (h : expectC c l = some r) :
    l = c :: r := by
  cases l with
  | nil => simp [expectC] at h
  | cons a t =>
    simp only [expectC] at h
    split_ifs at h with ha
    subst ha
    simp only [Option.some.injEq] at h
    rw [h]

/-- Inversion of `take4Digits`. -/
theorem take4Digits_decomp {l r : List Char} {v : Nat}
    (h : take4Digits l = some (v, r)) :
    ∃ ys, l = ys ++ r ∧ ys.length = 4 ∧ (∀ c ∈ ys, isDigit c = true) ∧
      digitsVal ys = v := by
  rcases l with _ | ⟨a, _ | ⟨b, _ | ⟨c, _ | ⟨d, t⟩⟩⟩⟩ <;>
    simp only [take4Digits] at h <;> try exact Option.noConfusion h
  split_ifs at h with hcond
  simp only [Option.some.injEq, Prod.mk.injEq] at h
  obtain ⟨hv, ht⟩ := h
  subst ht
  simp only [Bool.and_eq_true] at hcond
  refine ⟨[a, b, c, d], rfl, rfl, ?_, hv⟩
  intro x hx
  rcases List.mem_cons.mp hx with rfl | hx
  · exact hcond.1.1.1
  rcases List.mem_cons.mp hx with rfl | hx
  · exact hcond.1.1.2
  rcases List.mem_cons.mp hx with rfl | hx
  · exact hcond.1.2
  rcases List.mem_cons.mp hx with rfl | hx
  · exact hcond.2
  · cases hx

/-- Inversion of `take12Digits`. -/
theorem take12Digits_decomp {l r : List Char} {v : Nat}
    (h : take12Digits l = some (v, r)) :
    ∃ ms, l = ms ++ r ∧ (ms.length = 1 ∨ ms.length = 2) ∧
      (∀ c ∈ ms, isDigit c = true) ∧ digitsVal ms = v := by
  rcases l with _ | ⟨a, _ | ⟨b, t2⟩⟩ <;> simp only [take12Digits] at h <;>
    try exact Option.noConfusion h
  · split_ifs at h with ha
    simp only [Option.some.injEq, Prod.mk.injEq] at h
    obtain ⟨hv, ht⟩ := h
    subst ht
    refine ⟨[a], by simp, by simp, ?_, ?_⟩
    · intro x hx
      rcases List.mem_cons.mp hx with rfl | hx
      · exact ha
      · cases hx
    · rw [← hv]; simp [digitsVal, digitVal]
  · split_ifs at h with ha hb
    · simp only [Option.some.injEq, Prod.mk.injEq] at h
      obtain ⟨hv, ht⟩ := h
      subst ht
      refine ⟨[a, b], rfl, by simp, ?_, hv⟩
      intro x hx
      rcases List.mem_cons.mp hx with rfl | hx
      · exact ha
      rcases List.mem_cons.mp hx with rfl | hx
      · exact hb
      · cases hx
    · simp only [Option.some.injEq, Prod.mk.injEq] at h
      obtain ⟨hv, ht⟩ := h
      subst ht
      refine ⟨[a], rfl, by simp, ?_, ?_⟩
      · intro x hx
        rcases List.mem_cons.mp hx with rfl | hx
        · exact ha
        · cases hx
      · rw [← hv]; simp [digitsVal, digitVal]

/-- Inversion of the scan: a successful search exhibits a position at
which the pattern matches. -/
theorem scanList_decomp {f : List Char → Option α} {l : List Char} {v : α}
    (h : scanList f l = some v) : ∃ p s, l = p ++ s ∧ f s = some v := by
  induction l with
  | nil => simp [scanList] at h
  | cons c t ih =>
    simp only [scanList] at h
    cases hf : f (c :: t) with
    | some w =>
      rw [hf] at h
      simp only [Option.some.injEq] at h
      exact ⟨[], c :: t, rfl, by rw [hf, h]⟩
    | none =>
      rw [hf] at h
      obtain ⟨p, s, h1, h2⟩ := ih h
      exact ⟨c :: p, s, by rw [h1]; rfl, h2⟩

/-- Inversion of the anchored date match: a successful match decomposes
the input into the pattern's constituents. -/
theorem kdateAt_decomp {l : List Char} {y mo d : Nat}
    (h : kdateAt l = some (y, mo, d)) :
    ∃ ys w1 w2 ms w3 w4 ds w5 rest,
      l = ys ++ (w1 ++ ('년' :: (w2 ++ (ms ++ (w3 ++ ('월' ::
          (w4 ++ (ds ++ (w5 ++ ('일' :: rest)))))))))) ∧
      ys.length = 4 ∧ (∀ c ∈ ys, isDigit c = true) ∧
      (ms.length = 1 ∨ ms.length = 2) ∧ (∀ c ∈ ms, isDigit c = true) ∧
      (ds.length = 1 ∨ ds.length = 2) ∧ (∀ c ∈ ds, isDigit c = true) ∧
      (∀ c ∈ w1, isWs c = true) ∧ (∀ c ∈ w2, isWs c = true) ∧
      (∀ c ∈ w3, isWs c = true) ∧ (∀ c ∈ w4, isWs c = true) ∧
      (∀ c ∈ w5, isWs c = true) := by
  simp only [kdateAt, Option.bind_eq_some, Option.map_eq_some'] at h
  obtain ⟨⟨y0, r1⟩, h4, r2, he1, ⟨mo0, r3⟩, h12a, r4, he2, ⟨d0, r5⟩, h12b, rest, he3, -⟩ := h
  obtain ⟨ys, hys1, hys2, hys3, -⟩ := take4Digits_decomp h4
  obtain ⟨w1, hw11, hw12⟩ := skipWs_decomp r1
  have hr1 : r1 = w1 ++ ('년' :: r2) := by rw [hw11, expectC_decomp he1]
  obtain ⟨w2, hw21, hw22⟩ := skipWs_decomp r2
  obtain ⟨ms, hms1, hms2, hms3, -⟩ := take12Digits_decomp h12a
  have hr2 : r2 = w2 ++ (ms ++ r3) := by rw [hw21, hms1]
  obtain ⟨w3, hw31, hw32⟩ := skipWs_decomp r3
  have hr3 : r3 = w3 ++ ('월' :: r4) := by rw [hw31, expectC_decomp he2]
  obtain ⟨w4, hw41, hw42⟩ := skipWs_decomp r4
  obtain ⟨ds, hds1, hds2, hds3, -⟩ := take12Digits_decomp h12b
  have hr4 : r4 = w4 ++ (ds ++ r5) := by rw [hw41, hds1]
  obtain ⟨w5, hw51, hw52⟩ := skipWs_decomp r5
  have hr5 : r5 = w5 ++ ('일' :: rest) := by rw [hw51, expectC_decomp he3]
  refine ⟨ys, w1, w2, ms, w3, w4, ds, w5, rest, ?_, hys2, hys3, hms2, hms3,
    hds2, hds3, hw12, hw22, hw32, hw42, hw52⟩
  rw [hys1, hr1, hr2, hr3, hr4, hr5]

/-- Unfolding of `parseKoreanDate` on an explicitly built string. -/
theorem parseKoreanDate_mk (l : List Char) :
    parseKoreanDate (String.mk l) =
      (scanList kdateAt l).map (fun t => dayjsNorm t.1 t.2.1 t.2.2) := rfl

/-- A well-formed Korean date pattern occurs somewhere in the string:
four year digits, then the three unit glyphs with one-or-two-digit month
and day and optional interior whitespace around each unit. -/
def kdatePatternIn (s : String) : Prop :=
  ∃ pre ys w1 w2 ms w3 w4 ds w5 rest : List Char,
    s.toList = pre ++ (ys ++ (w1 ++ ('년' :: (w2 ++ (ms ++ (w3 ++ ('월' ::
        (w4 ++ (ds ++ (w5 ++ ('일' :: rest))))))))))) ∧
    ys.length = 4 ∧ (∀ c ∈ ys, isDigit c = true) ∧
    (ms.length = 1 ∨ ms.length = 2) ∧ (∀ c ∈ ms, isDigit c = true) ∧
    (ds.length = 1 ∨ ds.length = 2) ∧ (∀ c ∈ ds, isDigit c = true) ∧
    (∀ c ∈ w1, isWs c = true) ∧ (∀ c ∈ w2, isWs c = true) ∧
    (∀ c ∈ w3, isWs c = true) ∧ (∀ c ∈ w4, isWs c = true) ∧
    (∀ c ∈ w5, isWs c = true)

/-- C7: on an input consisting of a digit-free prefix, a well-formed
`<Y>년<M>월<D>일` occurrence — four-digit year without a leading zero,
calendar-valid one-or-two-digit month and day, any amount of interior
whitespace around each unit — and an arbitrary suffix, `parseCalendarDate`
recovers exactly the date Y-M-D; and on every input in which the pattern
is absent it returns null. -/
theorem parseKoreanDate_spec :
    (∀ pre ys w1 w2 ms w3 w4 ds w5 rest : List Char,
      (∀ c ∈ pre, isDigit c = false) →
      ys.length = 4 → (∀ c ∈ ys, isDigit c = true) → 1000 ≤ digitsVal ys →
      (ms.length = 1 ∨ ms.length = 2) → (∀ c ∈ ms, isDigit c = true) →
      1 ≤ digitsVal ms → digitsVal ms ≤ 12 →
      (ds.length = 1 ∨ ds.length = 2) → (∀ c ∈ ds, isDigit c = true) →
      1 ≤ digitsVal ds → digitsVal ds ≤ daysInMonth (digitsVal ys) (digitsVal ms) →
      (∀ c ∈ w1, isWs c = true) → (∀ c ∈ w2, isWs c = true) →
      (∀ c ∈ w3, isWs c = true) → (∀ c ∈ w4, isWs c = true) →
      (∀ c ∈ w5, isWs c = true) →
      parseKoreanDate (String.mk (pre ++ (ys ++ (w1 ++ ('년' ::
          (w2 ++ (ms ++ (w3 ++ ('월' ::
          (w4 ++ (ds ++ (w5 ++ ('일' :: rest))))))))))))) =
        some (digitsVal ys, digitsVal ms, digitsVal ds)) ∧
    (∀ s : String, ¬ kdatePatternIn s → parseKoreanDate s = none) := by
  constructor
  · intro pre ys w1 w2 ms w3 w4 ds w5 rest hpre hys hysd hyv hms hmsd hm1 hm2
      hds hdsd hd1 hd2 hw1 hw2 hw3 hw4 hw5
    have hAt := kdateAt_success ys ms ds w1 w2 w3 w4 w5 rest hys hysd hms hmsd
      hds hdsd hw1 hw2 hw3 hw4 hw5
    have hscan : scanList kdateAt (pre ++ (ys ++ (w1 ++ ('년' ::
        (w2 ++ (ms ++ (w3 ++ ('월' ::
        (w4 ++ (ds ++ (w5 ++ ('일' :: rest)))))))))))) =
        some (digitsVal ys, digitsVal ms, digitsVal ds) := by
      rw [scanList_skip_nondigits pre _ hpre]
      rcases ys with _ | ⟨a, t0⟩
      · simp at hys
      · exact scanList_hit kdateAt a _ _ hAt
    rw [parseKoreanDate_mk, hscan, Option.map_some']
    rw [dayjsNorm_id _ _ _ (by omega) hm1 hm2 hd1 hd2]
  · intro s hnp
    cases h : scanList kdateAt s.toList with
    | none =>
      have h2 : scanList kdateAt s.data = none := h
      simp [parseKoreanDate, h, h2]
    | some v =>
      exfalso
      apply hnp
      obtain ⟨p, suf, hsplit, hAt⟩ := scanList_decomp h
      obtain ⟨y, mo, d⟩ := v
      obtain ⟨ys, w1, w2, ms, w3, w4, ds, w5, rest, hdec, hprops⟩ := kdateAt_decomp hAt
      exact ⟨p, ys, w1, w2, ms, w3, w4, ds, w5, rest, by rw [hsplit, hdec], hprops⟩

/-- Witness for C7: the quoted pattern embedded between junk, and the
absence case on the empty string. -/
theorem parseKoreanDate_spec_witness :
    parseKoreanDate (String.mk (['일', '정', ':'] ++ (['2', '0', '2', '6'] ++ ([' '] ++ ('년' ::
        ([] ++ (['1'] ++ ([' ', ' '] ++ ('월' ::
        ([] ++ (['1', '1'] ++ ([' '] ++ ('일' :: [' ', '!']))))))))))))) =
      some (digitsVal ['2', '0', '2', '6'], digitsVal ['1'], digitsVal ['1', '1']) ∧
    parseKoreanDate "" = none :=
  ⟨parseKoreanDate_spec.1 ['일', '정', ':'] ['2', '0', '2', '6'] [' '] []
      ['1'] [' ', ' '] [] ['1', '1'] [' '] [' ', '!']
      (by decide) (by decide) (by decide) (by decide) (by decide) (by decide)
      (by decide) (by decide) (by decide) (by decide) (by decide) (by decide)
      (by decide) (by decide) (by decide) (by decide) (by decide),
   parseKoreanDate_spec.2 "" (by
    rintro ⟨pre, ys, w1, w2, ms, w3, w4, ds, w5, rest, hsplit, hlen, -⟩
    have h0 : (String.toList "").length = 0 := rfl
    rw [hsplit] at h0
    simp at h0)⟩

end RoadRun
